import Mathlib

/-!
Verification of the buffer pool manager and clock replacer of this
repository. The definitions below are a shallow embedding of
`src/buffer/clock_replacer.cpp` and `src/buffer/buffer_pool_manager.cpp`:
machine integers (`frame_id_t`, `page_id_t`, `int`) become `Int`, the
`std::vector<bool>` state vectors become `List Bool`, the
`std::unordered_map` page table becomes an association list, and the disk
manager becomes a mock recording its write and deallocation calls.
Helper members that are only declared in headers outside the repository
snapshot (`getFrameId`, `getPageByFrameId`, `pickVictimPage`, `isAllPined`)
are modelled from the specification, as marked in their doc comments.
-/

/-! ## Generic list and association-list helpers -/

/-- Lookup in an association list keyed by `Int`, first match wins
(the page table's keys are unique, mirroring `std::unordered_map`). -/
def lookupA {α : Type} : List (Int × α) → Int → Option α
  | [], _ => none
  | (k, v) :: rest, key => if k = key then some v else lookupA rest key

/-- Erase every binding of a key, mirroring `std::unordered_map::erase`
under the unique-key discipline. -/
def eraseA {α : Type} (t : List (Int × α)) (k : Int) : List (Int × α) :=
  t.filter (fun kv => kv.1 ≠ k)

/-- Insert mirroring `std::unordered_map::insert`: a no-op when the key is
already present. -/
def insertA {α : Type} (t : List (Int × α)) (k : Int) (v : α) : List (Int × α) :=
  if (lookupA t k).isSome then t else (k, v) :: t

/-- Read a list at a possibly negative machine-integer index.
A negative index is an out-of-range vector access (undefined behavior in
the C++ source), modelled as `none`. -/
def listGetI {α : Type} (l : List α) (i : Int) : Option α :=
  if i < 0 then none else l.get? i.toNat

/-- Write a list at a possibly negative machine-integer index; out of
range writes leave the list unchanged (callers guard the index). -/
def listSetI {α : Type} (l : List α) (i : Int) (a : α) : List α :=
  if i < 0 then l else l.set i.toNat a

/-- Number of `false` entries of a boolean list (used to state the
replacer's size bookkeeping: `false` in `pins_states` means evictable). -/
def countFalse : List Bool → Nat
  | [] => 0
  | b :: rest => (if b then 0 else 1) + countFalse rest

/-- Least index below the bound at which the predicate holds. -/
def firstOffset (P : Nat → Bool) : Nat → Option Nat
  | 0 => none
  | n + 1 =>
    match firstOffset P n with
    | some i => some i
    | none => if P n then some n else none

/-! ## ClockReplacer, from `src/buffer/clock_replacer.cpp` -/

/-- State of `ClockReplacer`: `access_states` are the reference bits,
`pins_states.get j = true` means frame `j` is pinned (not evictable),
`victimized_size` counts evictable frames, `clock_pointer` is the hand. -/
structure ClockReplacer where
  access_states : List Bool
  pins_states : List Bool
  victimized_size : Int
  clock_pointer : Nat
deriving DecidableEq

/-- Constructor `ClockReplacer(num_pages)`: every frame pinned, every
reference bit clear. The counter and hand start at zero (the counter's
initial value is forced by `Size`; the hand's start is any fixed slot of
`[0, capacity)` per the spec and is taken to be 0). -/
def ClockReplacer.init (num_pages : Nat) : ClockReplacer :=
  { access_states := List.replicate num_pages false
    pins_states := List.replicate num_pages true
    victimized_size := 0
    clock_pointer := 0 }

/-- The wrap normalization the sweep applies at the top of each
iteration: a pointer past the end is reset to 0. -/
def ClockReplacer.normPtr (r : ClockReplacer) : Nat :=
  if r.clock_pointer ≥ r.pins_states.length then 0 else r.clock_pointer

/-- One `while (true)` sweep of `ClockReplacer::Victim`, made structural
on an explicit fuel. Each iteration handles exactly one position: a
pinned frame is skipped, an evictable frame with its reference bit set
has the bit cleared, and an evictable frame with a clear bit is selected
(pinned again, counter decremented, hand advanced past it). Reading
outside the vectors gives `none` (out-of-range access). -/
def ClockReplacer.victimLoop : Nat → ClockReplacer → Option (Nat × ClockReplacer)
  | 0, _ => none
  | fuel + 1, r =>
    match r.pins_states.get? r.normPtr with
    | none => none
    | some true =>
      ClockReplacer.victimLoop fuel
        ⟨r.access_states, r.pins_states, r.victimized_size, r.normPtr + 1⟩
    | some false =>
      match r.access_states.get? r.normPtr with
      | none => none
      | some true =>
        ClockReplacer.victimLoop fuel
          ⟨r.access_states.set r.normPtr false, r.pins_states,
            r.victimized_size, r.normPtr + 1⟩
      | some false =>
        some (r.normPtr,
          ⟨r.access_states, r.pins_states.set r.normPtr true,
            r.victimized_size - 1, r.normPtr + 1⟩)

/-- `ClockReplacer::Victim`: returns immediately when the evictable
counter is zero, otherwise sweeps. The unbounded C++ loop is given fuel
for two full revolutions; theorem `clock_victim_total` below shows this
fuel is never exhausted in a well-formed state, so the embedding agrees
with the source loop wherever the latter terminates. -/
def ClockReplacer.Victim (r : ClockReplacer) : Option (Nat × ClockReplacer) :=
  if r.victimized_size = 0 then none
  else ClockReplacer.victimLoop (2 * r.pins_states.length) r

/-- `ClockReplacer::Pin`. The source guard is only `frame_id <
pins_states.size()`: a negative index passes it and reaches the vector
access, which is out of range (modelled as `none`). -/
def ClockReplacer.Pin (r : ClockReplacer) (frame_id : Int) : Option ClockReplacer :=
  if frame_id < (r.pins_states.length : Int) then
    match listGetI r.pins_states frame_id with
    | none => none
    | some pinned =>
      if pinned then some r
      else some { r with pins_states := listSetI r.pins_states frame_id true,
                         victimized_size := r.victimized_size - 1 }
  else some r

/-- `ClockReplacer::Unpin`. Same one-sided guard as `Pin`; for an
in-range frame the pinned bit is cleared (incrementing the counter when
it was set) and the reference bit is always set. -/
def ClockReplacer.Unpin (r : ClockReplacer) (frame_id : Int) : Option ClockReplacer :=
  if frame_id < (r.pins_states.length : Int) then
    match listGetI r.pins_states frame_id with
    | none => none
    | some pinned =>
      if pinned then
        some { r with pins_states := listSetI r.pins_states frame_id false,
                      victimized_size := r.victimized_size + 1,
                      access_states := listSetI r.access_states frame_id true }
      else some { r with access_states := listSetI r.access_states frame_id true }
  else some r

/-- `ClockReplacer::Size`. -/
def ClockReplacer.Size (r : ClockReplacer) : Int :=
  r.victimized_size

/-- Total wrapper over `Pin` for the pool's calls; the pool only passes
frame indices inside `[0, capacity)`, where `Pin` never returns `none`. -/
def ClockReplacer.pinD (r : ClockReplacer) (frame_id : Int) : ClockReplacer :=
  (r.Pin frame_id).getD r

/-- Total wrapper over `Unpin` for the pool's calls. -/
def ClockReplacer.unpinD (r : ClockReplacer) (frame_id : Int) : ClockReplacer :=
  (r.Unpin frame_id).getD r

/-- Frame `j` is evictable (pinned bit clear). -/
def ClockReplacer.isEvict (r : ClockReplacer) (j : Nat) : Bool :=
  r.pins_states.get? j == some false

/-- Frame `j` is evictable with its reference bit clear: exactly the
frames the sweep selects on sight. -/
def ClockReplacer.isClearEvict (r : ClockReplacer) (j : Nat) : Bool :=
  (r.pins_states.get? j == some false) && (r.access_states.get? j == some false)

/-- First position of the cyclic order `start, start+1, ...` (wrapping at
`cap`) satisfying the predicate, if any appears within one revolution. -/
def cyclicFind (start cap : Nat) (P : Nat → Bool) : Option Nat :=
  (firstOffset (fun i => P ((start + i) % cap)) cap).map (fun i => (start + i) % cap)

/-- Specification-side description of the frame `Victim` returns, written
from the claim's words: the first evictable frame at or after the hand
whose reference bit is false once the sweep's clearing pass is accounted
for — that is, the first evictable frame with a clear bit if one exists,
and otherwise (every evictable bit being cleared during the first
revolution) the first evictable frame at or after the hand. -/
def ClockReplacer.clockSpecVictim (r : ClockReplacer) : Option Nat :=
  match cyclicFind r.normPtr r.pins_states.length r.isClearEvict with
  | some t => some t
  | none => cyclicFind r.normPtr r.pins_states.length r.isEvict

/-- Well-formedness maintained by the replacer's own operations from
construction: equal vector lengths, a hand at most one past the end, and
a counter equal to the number of evictable frames. -/
def ClockWF (r : ClockReplacer) : Prop :=
  r.access_states.length = r.pins_states.length ∧
  r.clock_pointer ≤ r.pins_states.length ∧
  r.victimized_size = (countFalse r.pins_states : Int)

instance (r : ClockReplacer) : Decidable (ClockWF r) := by
  unfold ClockWF; infer_instance

/-! ## Disk manager mock (contract of §6 of the spec) -/

/-- Mock disk manager: a backing store for reads plus logs of the
`WritePage` and `DeallocatePage` calls and the allocation counter. -/
structure DiskManager where
  contents : List (Int × Nat)
  writes : List (Int × Nat)
  deallocs : List Int
  next_page_id : Int
deriving DecidableEq

/-- `DiskManager::WritePage`: persists the payload and is recorded in the
write log. -/
def DiskManager.WritePage (d : DiskManager) (page_id : Int) (payload : Nat) : DiskManager :=
  { d with contents := (page_id, payload) :: eraseA d.contents page_id
           writes := d.writes ++ [(page_id, payload)] }

/-- `DiskManager::ReadPage`: pure read of the backing store (absent pages
read as zeroes). -/
def DiskManager.ReadPage (d : DiskManager) (page_id : Int) : Nat :=
  (lookupA d.contents page_id).getD 0

/-- `DiskManager::AllocatePage`: returns a fresh identifier. -/
def DiskManager.AllocatePage (d : DiskManager) : Int × DiskManager :=
  (d.next_page_id, { d with next_page_id := d.next_page_id + 1 })

/-- `DiskManager::DeallocatePage`: records the deallocation. -/
def DiskManager.DeallocatePage (d : DiskManager) (page_id : Int) : DiskManager :=
  { d with deallocs := d.deallocs ++ [page_id] }

/-! ## Pages and the buffer pool, from `src/buffer/buffer_pool_manager.cpp` -/

/-- A frame: resident page id (−1 when unoccupied), pin count, dirty
flag, and the payload abstracted to one value. -/
structure Page where
  page_id : Int
  pin_count : Int
  is_dirty : Bool
  data : Nat
deriving DecidableEq

/-- A default-constructed `Page`: unoccupied, unpinned, clean, zeroed. -/
def defaultPage : Page := ⟨-1, 0, false, 0⟩

/-- The buffer pool manager's state. -/
structure BufferPoolManager where
  pool_size : Nat
  pages : List Page
  replacer : ClockReplacer
  free_list : List Int
  page_table : List (Int × Int)
  disk : DiskManager
deriving DecidableEq

/-- The constructor: frames default-initialized, every frame initially in
the free list, a fresh replacer. -/
def BufferPoolManager.init (pool_size : Nat) (disk : DiskManager) : BufferPoolManager :=
  { pool_size := pool_size
    pages := List.replicate pool_size defaultPage
    replacer := ClockReplacer.init pool_size
    free_list := (List.range pool_size).map (fun i => (i : Int))
    page_table := []
    disk := disk }

/-- Modelled from the spec: helper `getFrameId` is declared in the pool's
header, which is not part of this snapshot. §3: the page table maps
`PageId → FrameId`; the helper is its lookup. -/
def BufferPoolManager.getFrameId (bpm : BufferPoolManager) (page_id : Int) : Option Int :=
  lookupA bpm.page_table page_id

/-- Modelled from the spec: helper `getPageByFrameId` is declared in the
pool's header, which is not part of this snapshot. It indexes the fixed
frame array; the guarded default branch is never taken by the pool, which
only passes indices of frames it owns. -/
def BufferPoolManager.getPageByFrameId (bpm : BufferPoolManager) (f : Int) : Page :=
  if 0 ≤ f then bpm.pages.getD f.toNat defaultPage else defaultPage

/-- Write a frame of the pool's array in place (embedding plumbing for
the mutations the C++ performs through the `Page` pointer). -/
def BufferPoolManager.setPageAt (bpm : BufferPoolManager) (f : Int) (pg : Page) : BufferPoolManager :=
  if 0 ≤ f then { bpm with pages := bpm.pages.set f.toNat pg } else bpm

/-- Modelled from the spec: helper `pickVictimPage` is declared in the
pool's header, which is not part of this snapshot. §4.2 (miss path):
obtain a frame preferring the free list (drained front-first, §3) over
the replacer; if the chosen frame was a victim that is dirty, write its
payload back via the disk manager, then erase its old page-table entry.
`-1` signals that no frame is available. -/
def pickVictimPage (bpm : BufferPoolManager) : Int × BufferPoolManager :=
  match bpm.free_list with
  | f :: rest => (f, { bpm with free_list := rest })
  | [] =>
    match bpm.replacer.Victim with
    | none => (-1, bpm)
    | some (fN, rep) =>
      let f : Int := (fN : Int)
      let pg := bpm.getPageByFrameId f
      let disk1 := if pg.is_dirty then bpm.disk.WritePage pg.page_id pg.data else bpm.disk
      (f, { bpm with replacer := rep, disk := disk1,
                     page_table := eraseA bpm.page_table pg.page_id })

/-- Modelled from the spec: helper `isAllPined` is declared in the pool's
header, which is not part of this snapshot. §4.2: `NewPage` returns none
exactly when every frame is pinned, i.e. no candidate comes from the free
list or the replacer. -/
def isAllPined (bpm : BufferPoolManager) : Bool :=
  bpm.free_list.isEmpty && (bpm.replacer.Size == 0)

/-- `BufferPoolManager::FetchPageImpl`. Hit path: tell the replacer to
pin the frame and return it (the source does not touch `pin_count_`).
Miss path: pick a frame, install the new table entry, reset memory, pin
in the replacer, set metadata, read the payload from disk. -/
def FetchPageImpl (bpm : BufferPoolManager) (page_id : Int) : Option Int × BufferPoolManager :=
  match bpm.getFrameId page_id with
  | some f => (some f, { bpm with replacer := bpm.replacer.pinD f })
  | none =>
    match pickVictimPage bpm with
    | (f, bpm1) =>
      if f = -1 then (none, bpm1)
      else
        let bpm2 := { bpm1 with page_table := insertA bpm1.page_table page_id f }
        let bpm3 := bpm2.setPageAt f { bpm2.getPageByFrameId f with data := 0 }
        let bpm4 := { bpm3 with replacer := bpm3.replacer.pinD f }
        let bpm5 := bpm4.setPageAt f
          { bpm4.getPageByFrameId f with page_id := page_id, pin_count := 1, is_dirty := false }
        let bpm6 := bpm5.setPageAt f
          { bpm5.getPageByFrameId f with data := bpm5.disk.ReadPage page_id }
        (some f, bpm6)

/-- `BufferPoolManager::UnpinPageImpl`. -/
def UnpinPageImpl (bpm : BufferPoolManager) (page_id : Int) (is_dirty : Bool) :
    Bool × BufferPoolManager :=
  match bpm.getFrameId page_id with
  | none => (false, bpm)
  | some f =>
    let pg := bpm.getPageByFrameId f
    if pg.pin_count ≤ 0 then (false, bpm)
    else
      let bpm1 := bpm.setPageAt f
        { pg with pin_count := pg.pin_count - 1, is_dirty := pg.is_dirty || is_dirty }
      (true, { bpm1 with replacer := bpm1.replacer.unpinD f })

/-- `BufferPoolManager::FlushPageImpl`. Note the source returns `false`
on the successful write-back path as well. -/
def FlushPageImpl (bpm : BufferPoolManager) (page_id : Int) : Bool × BufferPoolManager :=
  match bpm.getFrameId page_id with
  | none => (false, bpm)
  | some f =>
    let pg := bpm.getPageByFrameId f
    if ¬ pg.is_dirty then (false, bpm)
    else
      let bpm1 := { bpm with disk := bpm.disk.WritePage page_id pg.data }
      let bpm2 := bpm1.setPageAt f { pg with is_dirty := false }
      (false, bpm2)

/-- `BufferPoolManager::NewPageImpl`: returns the fresh page id and the
frame handle on success. -/
def NewPageImpl (bpm : BufferPoolManager) : Option (Int × Int) × BufferPoolManager :=
  if isAllPined bpm then (none, bpm)
  else
    match pickVictimPage bpm with
    | (f, bpm1) =>
      if f < 0 then (none, bpm1)
      else
        match bpm1.disk.AllocatePage with
        | (new_page_id, disk1) =>
          let bpm2 := { bpm1 with disk := disk1 }
          let bpm3 := bpm2.setPageAt f
            { bpm2.getPageByFrameId f with
                data := 0, page_id := new_page_id, pin_count := 1, is_dirty := false }
          let bpm4 := { bpm3 with page_table := insertA bpm3.page_table new_page_id f }
          (some (new_page_id, f), bpm4)

/-- `BufferPoolManager::DeletePageImpl`. Note the source returns `false`
on the successful deletion path, never calls `DeallocatePage`, and never
informs the replacer. -/
def DeletePageImpl (bpm : BufferPoolManager) (page_id : Int) : Bool × BufferPoolManager :=
  match bpm.getFrameId page_id with
  | none => (true, bpm)
  | some f =>
    let pg := bpm.getPageByFrameId f
    if pg.pin_count ≠ 0 then (false, bpm)
    else
      let bpm1 := { bpm with page_table := eraseA bpm.page_table pg.page_id }
      let bpm2 := bpm1.setPageAt f { bpm1.getPageByFrameId f with data := 0 }
      let bpm3 := { bpm2 with free_list := bpm2.free_list ++ [f] }
      (false, bpm3)

/-- The iteration of `FlushAllPagesImpl` over the page-table entries (the
table is not modified by a flush, so the snapshot equals the live map). -/
def flushList : List (Int × Int) → BufferPoolManager → BufferPoolManager
  | [], bpm => bpm
  | (p, _) :: rest, bpm => flushList rest (FlushPageImpl bpm p).2

/-- `BufferPoolManager::FlushAllPagesImpl`. -/
def FlushAllPagesImpl (bpm : BufferPoolManager) : BufferPoolManager :=
  flushList bpm.page_table bpm

/-- The invariant of §3 of the spec relating pool and replacer: a frame
is evictable exactly when its pin count is zero and it holds a page
(appears as a value of the page table). -/
def poolReplacerInv (bpm : BufferPoolManager) : Bool :=
  (List.range bpm.pool_size).all (fun f =>
    bpm.replacer.isEvict f ==
      ((bpm.getPageByFrameId (f : Int)).pin_count == 0 &&
        bpm.page_table.any (fun kv => kv.2 == (f : Int))))

/-! ## Concrete states used by witnesses and counterexamples -/

/-- An empty mock disk. -/
def disk0 : DiskManager := ⟨[], [], [], 0⟩

/-- A one-frame pool. -/
def bpm0 : BufferPoolManager := BufferPoolManager.init 1 disk0

/-- After `NewPage`: page 0 resident in frame 0, pinned once, clean. -/
def bpmS1 : BufferPoolManager := (NewPageImpl bpm0).2

/-- After `Unpin(0, true)`: page 0 resident, pin count 0, dirty,
evictable in the replacer. -/
def bpmS2 : BufferPoolManager := (UnpinPageImpl bpmS1 0 true).2

/-- After a subsequent `Fetch(0)` hit on the unpinned resident page. -/
def bpmS3 : BufferPoolManager := (FetchPageImpl bpmS2 0).2

/-- A two-frame pool holding pages 0 (dirty, unpinned) and 1 (clean,
pinned), for the `FlushAll` witness. -/
def bpmW10 : BufferPoolManager :=
  (UnpinPageImpl (NewPageImpl (NewPageImpl (BufferPoolManager.init 2 disk0)).2).2 0 true).2

/-- A replacer with frame 0 pinned and frame 1 evictable with its
reference bit set, for the victim witnesses. -/
def repW67 : ClockReplacer := ⟨[true, true], [true, false], 1, 0⟩

/-- A two-frame replacer fresh from construction. -/
def repW9 : ClockReplacer := ClockReplacer.init 2

/-! ## Basic lemmas about the helpers -/

theorem get?_set_ne {α : Type} (l : List α) (i j : Nat) (a : α) (h : i ≠ j) :
    (l.set i a).get? j = l.get? j := by
  induction l generalizing i j with
  | nil => simp
  | cons x xs ih =>
    cases i with
    | zero =>
      cases j with
      | zero => exact absurd rfl h
      | succ j => simp [List.set]
    | succ i =>
      cases j with
      | zero => simp [List.set]
      | succ j => simpa [List.set] using ih i j (by omega)

theorem get?_set_self {α : Type} (l : List α) (i : Nat) (a : α) (h : i < l.length) :
    (l.set i a).get? i = some a := by
  induction l generalizing i with
  | nil => simp at h
  | cons x xs ih =>
    cases i with
    | zero => simp [List.set]
    | succ i => simpa [List.set] using ih i (by simpa using h)

theorem get?_len_le {α : Type} (l : List α) (n : Nat) (h : l.length ≤ n) :
    l.get? n = none := by
  exact List.get?_eq_none.mpr h

theorem get?_lt_some {α : Type} (l : List α) (n : Nat) (h : n < l.length) :
    ∃ a, l.get? n = some a := by
  cases hg : l.get? n with
  | none => exact absurd (List.get?_eq_none.mp hg) (by omega)
  | some a => exact ⟨a, rfl⟩

theorem countFalse_pos (l : List Bool) (h : 0 < countFalse l) :
    ∃ n, n < l.length ∧ l.get? n = some false := by
  induction l with
  | nil => simp [countFalse] at h
  | cons b rest ih =>
    cases b with
    | false => exact ⟨0, by simp, rfl⟩
    | true =>
      have h' : 0 < countFalse rest := by simpa [countFalse] using h
      obtain ⟨n, hn, hg⟩ := ih h'
      exact ⟨n + 1, by simpa using hn, by simpa using hg⟩

theorem firstOffset_none {P : Nat → Bool} {n : Nat} (h : firstOffset P n = none) :
    ∀ i, i < n → P i = false := by
  induction n with
  | zero => intro i hi; omega
  | succ n ih =>
    intro i hi
    unfold firstOffset at h
    cases hf : firstOffset P n with
    | some j => rw [hf] at h; simp at h
    | none =>
      rw [hf] at h
      rcases Nat.lt_succ_iff_lt_or_eq.mp hi with hlt | heq
      · exact ih hf i hlt
      · subst heq
        by_cases hp : P i = true
        · rw [if_pos hp] at h; simp at h
        · simpa using hp

theorem firstOffset_some {P : Nat → Bool} {n i : Nat} (h : firstOffset P n = some i) :
    i < n ∧ P i = true ∧ ∀ j, j < i → P j = false := by
  induction n with
  | zero => simp [firstOffset] at h
  | succ n ih =>
    unfold firstOffset at h
    cases hf : firstOffset P n with
    | some j =>
      rw [hf] at h
      obtain rfl : j = i := by simpa using h
      obtain ⟨h1, h2, h3⟩ := ih hf
      exact ⟨by omega, h2, h3⟩
    | none =>
      rw [hf] at h
      by_cases hp : P n = true
      · rw [if_pos hp] at h
        obtain rfl : n = i := by simpa using h
        exact ⟨by omega, hp, firstOffset_none hf⟩
      · rw [if_neg hp] at h; simp at h

theorem mod_shift_ne (p k cap : Nat) (hp : p < cap) (hk0 : 0 < k) (hk : k < cap) :
    (p + k) % cap ≠ p := by
  by_cases hlt : p + k < cap
  · rw [Nat.mod_eq_of_lt hlt]; omega
  · have h1 : (p + k) % cap = (p + k - cap) % cap := by
      rw [Nat.mod_eq_sub_mod (by omega)]
    have h2 : p + k - cap < cap := by omega
    rw [h1, Nat.mod_eq_of_lt h2]
    omega

theorem cycle_surj (p q cap : Nat) (hp : p < cap) (hq : q < cap) :
    ∃ i, i < cap ∧ (p + i) % cap = q := by
  refine ⟨(cap + q - p) % cap, Nat.mod_lt _ (by omega), ?_⟩
  have h1 : (p + (cap + q - p) % cap) % cap = (p + (cap + q - p)) % cap := by
    conv_lhs => rw [Nat.add_mod, Nat.mod_mod_of_dvd _ dvd_rfl]
    rw [← Nat.add_mod]
  rw [h1]
  have h2 : p + (cap + q - p) = cap + q := by omega
  rw [h2, Nat.add_mod_left, Nat.mod_eq_of_lt hq]

theorem normPtr_lt (r : ClockReplacer) (h : 0 < r.pins_states.length) :
    r.normPtr < r.pins_states.length := by
  unfold ClockReplacer.normPtr
  by_cases hge : r.clock_pointer ≥ r.pins_states.length
  · rw [if_pos hge]; exact h
  · rw [if_neg hge]; omega

theorem normPtr_of_le (acc pins : List Bool) (sz : Int) (ptr : Nat)
    (h : ptr ≤ pins.length) :
    (ClockReplacer.mk acc pins sz ptr).normPtr = ptr % pins.length := by
  unfold ClockReplacer.normPtr
  by_cases hge : ptr ≥ pins.length
  · have : ptr = pins.length := by omega
    subst this
    simp [Nat.mod_self]
  · have hlt : ptr < pins.length := by omega
    simp [hge, Nat.mod_eq_of_lt hlt]

/-! ## The clock sweep: characterization and termination -/

theorem victimLoop_succ (fuel : Nat) (r : ClockReplacer) :
    ClockReplacer.victimLoop (fuel + 1) r =
      match r.pins_states.get? r.normPtr with
      | none => none
      | some true =>
        ClockReplacer.victimLoop fuel
          ⟨r.access_states, r.pins_states, r.victimized_size, r.normPtr + 1⟩
      | some false =>
        match r.access_states.get? r.normPtr with
        | none => none
        | some true =>
          ClockReplacer.victimLoop fuel
            ⟨r.access_states.set r.normPtr false, r.pins_states,
              r.victimized_size, r.normPtr + 1⟩
        | some false =>
          some (r.normPtr,
            ⟨r.access_states, r.pins_states.set r.normPtr true,
              r.victimized_size - 1, r.normPtr + 1⟩) := rfl

theorem victimLoop_select (d : Nat) :
    ∀ (fuel : Nat) (r : ClockReplacer) (t : Nat),
      r.access_states.length = r.pins_states.length →
      r.clock_pointer ≤ r.pins_states.length →
      0 < r.pins_states.length →
      d < r.pins_states.length →
      d < fuel →
      t = (r.normPtr + d) % r.pins_states.length →
      r.isClearEvict t = true →
      (∀ i, i < d → r.isClearEvict ((r.normPtr + i) % r.pins_states.length) = false) →
      ∃ acc, ClockReplacer.victimLoop fuel r =
        some (t, ⟨acc, r.pins_states.set t true, r.victimized_size - 1, t + 1⟩) := by
  induction d with
  | zero =>
    intro fuel r t hlen hptr hpos hdcap hdfuel ht hclear _
    obtain ⟨f, rfl⟩ : ∃ f, fuel = f + 1 := ⟨fuel - 1, by omega⟩
    have hteq : t = r.normPtr := by
      rw [ht, Nat.add_zero, Nat.mod_eq_of_lt (normPtr_lt r hpos)]
    subst hteq
    simp only [ClockReplacer.isClearEvict, Bool.and_eq_true, beq_iff_eq] at hclear
    refine ⟨r.access_states, ?_⟩
    rw [victimLoop_succ, hclear.1, hclear.2]
  | succ d ih =>
    intro fuel r t hlen hptr hpos hdcap hdfuel ht hclear hbefore
    obtain ⟨f, rfl⟩ : ∃ f, fuel = f + 1 := ⟨fuel - 1, by omega⟩
    have hplt : r.normPtr < r.pins_states.length := normPtr_lt r hpos
    have hp0 : r.isClearEvict r.normPtr = false := by
      have h0 := hbefore 0 (by omega)
      rwa [Nat.add_zero, Nat.mod_eq_of_lt hplt] at h0
    obtain ⟨b, hb⟩ := get?_lt_some r.pins_states r.normPtr hplt
    have harith : ∀ k : Nat,
        ((r.normPtr + 1) % r.pins_states.length + k) % r.pins_states.length =
          (r.normPtr + (k + 1)) % r.pins_states.length := by
      intro k
      rw [Nat.mod_add_mod]
      congr 1
      omega
    cases b with
    | true =>
      have hstep : ClockReplacer.victimLoop (f + 1) r =
          ClockReplacer.victimLoop f
            ⟨r.access_states, r.pins_states, r.victimized_size, r.normPtr + 1⟩ := by
        rw [victimLoop_succ, hb]
      rw [hstep]
      have hnorm : (ClockReplacer.mk r.access_states r.pins_states r.victimized_size
          (r.normPtr + 1)).normPtr = (r.normPtr + 1) % r.pins_states.length :=
        normPtr_of_le _ _ _ _ (by omega)
      refine ih f ⟨r.access_states, r.pins_states, r.victimized_size, r.normPtr + 1⟩ t
        hlen (by simpa using Nat.succ_le_of_lt hplt) hpos
        (show d < r.pins_states.length by omega) (by omega) ?_ ?_ ?_
      · rw [hnorm, harith d]
        exact ht
      · exact hclear
      · intro i hi
        rw [hnorm, harith i]
        exact hbefore (i + 1) (by omega)
    | false =>
      have haccess : r.access_states.get? r.normPtr = some true := by
        simp only [ClockReplacer.isClearEvict, hb, Bool.and_eq_false_iff] at hp0
        rcases hp0 with h | h
        · simp at h
        · obtain ⟨a, ha⟩ := get?_lt_some r.access_states r.normPtr (by omega)
          rw [ha]
          rw [ha] at h
          cases a with
          | true => rfl
          | false => simp at h
      have hstep : ClockReplacer.victimLoop (f + 1) r =
          ClockReplacer.victimLoop f
            ⟨r.access_states.set r.normPtr false, r.pins_states,
              r.victimized_size, r.normPtr + 1⟩ := by
        rw [victimLoop_succ, hb, haccess]
      rw [hstep]
      have htne : t ≠ r.normPtr := by
        intro h
        rw [h] at hclear
        rw [hclear] at hp0
        exact absurd hp0 (by simp)
      have hnorm : (ClockReplacer.mk (r.access_states.set r.normPtr false) r.pins_states
          r.victimized_size (r.normPtr + 1)).normPtr =
            (r.normPtr + 1) % r.pins_states.length :=
        normPtr_of_le _ _ _ _ (by omega)
      refine ih f ⟨r.access_states.set r.normPtr false, r.pins_states,
          r.victimized_size, r.normPtr + 1⟩ t
        (by simpa using hlen) (by simpa using Nat.succ_le_of_lt hplt) hpos
        (show d < r.pins_states.length by omega) (by omega) ?_ ?_ ?_
      · rw [hnorm, harith d]
        exact ht
      · simp only [ClockReplacer.isClearEvict] at hclear ⊢
        rwa [get?_set_ne _ _ _ _ (fun h => htne h.symm)]
      · intro i hi
        rw [hnorm, harith i]
        have hq := hbefore (i + 1) (by omega)
        have hqne : (r.normPtr + (i + 1)) % r.pins_states.length ≠ r.normPtr :=
          mod_shift_ne r.normPtr (i + 1) r.pins_states.length hplt (by omega) (by omega)
        simp only [ClockReplacer.isClearEvict] at hq ⊢
        rwa [get?_set_ne _ _ _ _ (fun h => hqne h.symm)]

theorem victimLoop_sweep (d : Nat) :
    ∀ (fuel : Nat) (r : ClockReplacer) (j : Nat),
      r.access_states.length = r.pins_states.length →
      r.clock_pointer ≤ r.pins_states.length →
      0 < r.pins_states.length →
      d < r.pins_states.length →
      d + r.pins_states.length < fuel →
      j = (r.normPtr + d) % r.pins_states.length →
      r.pins_states.get? j = some false →
      (∀ i, i < d → r.pins_states.get? ((r.normPtr + i) % r.pins_states.length) = some true) →
      (∀ q, q < r.pins_states.length → r.isClearEvict q = false) →
      ∃ acc, ClockReplacer.victimLoop fuel r =
        some (j, ⟨acc, r.pins_states.set j true, r.victimized_size - 1, j + 1⟩) := by
  induction d with
  | zero =>
    intro fuel r j hlen hptr hpos hdcap hdfuel hj hpins _ hglobal
    obtain ⟨f, rfl⟩ : ∃ f, fuel = f + 1 := ⟨fuel - 1, by omega⟩
    have hplt : r.normPtr < r.pins_states.length := normPtr_lt r hpos
    have hjeq : j = r.normPtr := by
      rw [hj, Nat.add_zero, Nat.mod_eq_of_lt hplt]
    subst hjeq
    have haccess : r.access_states.get? r.normPtr = some true := by
      have hg := hglobal r.normPtr hplt
      simp only [ClockReplacer.isClearEvict, hpins, Bool.and_eq_false_iff] at hg
      rcases hg with h | h
      · simp at h
      · obtain ⟨a, ha⟩ := get?_lt_some r.access_states r.normPtr (by omega)
        rw [ha]
        rw [ha] at h
        cases a with
        | true => rfl
        | false => simp at h
    have hstep : ClockReplacer.victimLoop (f + 1) r =
        ClockReplacer.victimLoop f
          ⟨r.access_states.set r.normPtr false, r.pins_states,
            r.victimized_size, r.normPtr + 1⟩ := by
      rw [victimLoop_succ, hpins, haccess]
    rw [hstep]
    have hnorm : (ClockReplacer.mk (r.access_states.set r.normPtr false) r.pins_states
        r.victimized_size (r.normPtr + 1)).normPtr =
          (r.normPtr + 1) % r.pins_states.length :=
      normPtr_of_le _ _ _ _ (by omega)
    refine victimLoop_select (r.pins_states.length - 1) f
      ⟨r.access_states.set r.normPtr false, r.pins_states, r.victimized_size,
        r.normPtr + 1⟩ r.normPtr
      (by simpa using hlen) (by simpa using Nat.succ_le_of_lt hplt) hpos
      (show r.pins_states.length - 1 < r.pins_states.length by omega)
      (show r.pins_states.length - 1 < f by omega) ?_ ?_ ?_
    · rw [hnorm, Nat.mod_add_mod]
      have heq2 : r.normPtr + 1 + (r.pins_states.length - 1) =
          r.normPtr + r.pins_states.length := by omega
      rw [heq2, Nat.add_mod_right, Nat.mod_eq_of_lt hplt]
    · simp only [ClockReplacer.isClearEvict, hpins]
      rw [get?_set_self _ _ _ (by omega)]
      rfl
    · intro i hi
      rw [hnorm, Nat.mod_add_mod]
      have hne : (r.normPtr + 1 + i) % r.pins_states.length ≠ r.normPtr := by
        have heq3 : r.normPtr + 1 + i = r.normPtr + (i + 1) := by omega
        rw [heq3]
        exact mod_shift_ne r.normPtr (i + 1) r.pins_states.length hplt (by omega) (by omega)
      have hqlt : (r.normPtr + 1 + i) % r.pins_states.length < r.pins_states.length :=
        Nat.mod_lt _ (by omega)
      have hg := hglobal _ hqlt
      simp only [ClockReplacer.isClearEvict] at hg ⊢
      rwa [get?_set_ne _ _ _ _ (fun h => hne h.symm)]
  | succ d ih =>
    intro fuel r j hlen hptr hpos hdcap hdfuel hj hpins hskips hglobal
    obtain ⟨f, rfl⟩ : ∃ f, fuel = f + 1 := ⟨fuel - 1, by omega⟩
    have hplt : r.normPtr < r.pins_states.length := normPtr_lt r hpos
    have hp0 : r.pins_states.get? r.normPtr = some true := by
      have h0 := hskips 0 (by omega)
      rwa [Nat.add_zero, Nat.mod_eq_of_lt hplt] at h0
    have hstep : ClockReplacer.victimLoop (f + 1) r =
        ClockReplacer.victimLoop f
          ⟨r.access_states, r.pins_states, r.victimized_size, r.normPtr + 1⟩ := by
      rw [victimLoop_succ, hp0]
    rw [hstep]
    have hnorm : (ClockReplacer.mk r.access_states r.pins_states r.victimized_size
        (r.normPtr + 1)).normPtr = (r.normPtr + 1) % r.pins_states.length :=
      normPtr_of_le _ _ _ _ (by omega)
    have harith : ∀ k : Nat,
        ((r.normPtr + 1) % r.pins_states.length + k) % r.pins_states.length =
          (r.normPtr + (k + 1)) % r.pins_states.length := by
      intro k
      rw [Nat.mod_add_mod]
      congr 1
      omega
    refine ih f ⟨r.access_states, r.pins_states, r.victimized_size, r.normPtr + 1⟩ j
      hlen (by simpa using Nat.succ_le_of_lt hplt) hpos
      (show d < r.pins_states.length by omega)
      (show d + r.pins_states.length < f by omega) ?_ ?_ ?_ ?_
    · rw [hnorm, harith d]
      exact hj
    · exact hpins
    · intro i hi
      rw [hnorm, harith i]
      exact hskips (i + 1) (by omega)
    · exact hglobal

theorem victim_spec_core (r : ClockReplacer) (hWF : ClockWF r)
    (hx : 0 < countFalse r.pins_states) :
    ∃ t rep, r.Victim = some (t, rep) ∧ r.clockSpecVictim = some t ∧
      rep.pins_states = r.pins_states.set t true ∧
      rep.clock_pointer = t + 1 ∧
      rep.victimized_size = r.victimized_size - 1 := by
  obtain ⟨hlen, hptr, hsz⟩ := hWF
  obtain ⟨n, hn, hgn⟩ := countFalse_pos r.pins_states hx
  have hpos : 0 < r.pins_states.length := by omega
  have hplt : r.normPtr < r.pins_states.length := normPtr_lt r hpos
  have hVic : r.Victim = ClockReplacer.victimLoop (2 * r.pins_states.length) r := by
    unfold ClockReplacer.Victim
    rw [if_neg (by rw [hsz]; omega)]
  cases h1 : firstOffset
      (fun i => r.isClearEvict ((r.normPtr + i) % r.pins_states.length))
      r.pins_states.length with
  | some i =>
    obtain ⟨hi_lt, hPi, hmin⟩ := firstOffset_some h1
    obtain ⟨acc, hloop⟩ := victimLoop_select i (2 * r.pins_states.length) r
      ((r.normPtr + i) % r.pins_states.length) hlen hptr hpos hi_lt (by omega) rfl hPi
      (fun k hk => hmin k hk)
    refine ⟨(r.normPtr + i) % r.pins_states.length,
      ⟨acc, r.pins_states.set ((r.normPtr + i) % r.pins_states.length) true,
        r.victimized_size - 1, (r.normPtr + i) % r.pins_states.length + 1⟩,
      ?_, ?_, rfl, rfl, rfl⟩
    · rw [hVic, hloop]
    · unfold ClockReplacer.clockSpecVictim cyclicFind
      rw [h1]
      rfl
  | none =>
    have hglobal : ∀ q, q < r.pins_states.length → r.isClearEvict q = false := by
      intro q hq
      obtain ⟨i, hi, hiq⟩ := cycle_surj r.normPtr q r.pins_states.length hplt hq
      rw [← hiq]
      exact firstOffset_none h1 i hi
    cases h2 : firstOffset
        (fun i => r.isEvict ((r.normPtr + i) % r.pins_states.length))
        r.pins_states.length with
    | none =>
      exfalso
      obtain ⟨i, hi, hiq⟩ := cycle_surj r.normPtr n r.pins_states.length hplt hn
      have hni := firstOffset_none h2 i hi
      rw [hiq] at hni
      simp only [ClockReplacer.isEvict, hgn] at hni
      simp at hni
    | some i2 =>
      obtain ⟨hi2_lt, hPi2, hmin2⟩ := firstOffset_some h2
      have hjpins : r.pins_states.get?
          ((r.normPtr + i2) % r.pins_states.length) = some false := by
        simpa [ClockReplacer.isEvict] using hPi2
      have hskips : ∀ k, k < i2 →
          r.pins_states.get? ((r.normPtr + k) % r.pins_states.length) = some true := by
        intro k hk
        have hfalse := hmin2 k hk
        have hqlt : (r.normPtr + k) % r.pins_states.length < r.pins_states.length :=
          Nat.mod_lt _ (by omega)
        obtain ⟨b, hb⟩ := get?_lt_some r.pins_states _ hqlt
        rw [hb]
        simp only [ClockReplacer.isEvict, hb] at hfalse
        cases b with
        | true => rfl
        | false => simp at hfalse
      obtain ⟨acc, hloop⟩ := victimLoop_sweep i2 (2 * r.pins_states.length) r
        ((r.normPtr + i2) % r.pins_states.length) hlen hptr hpos hi2_lt (by omega) rfl
        hjpins hskips hglobal
      refine ⟨(r.normPtr + i2) % r.pins_states.length,
        ⟨acc, r.pins_states.set ((r.normPtr + i2) % r.pins_states.length) true,
          r.victimized_size - 1, (r.normPtr + i2) % r.pins_states.length + 1⟩,
        ?_, ?_, rfl, rfl, rfl⟩
      · rw [hVic, hloop]
      · unfold ClockReplacer.clockSpecVictim cyclicFind
        rw [h1, h2]
        rfl

/-! ## Association-list and pool projection lemmas -/

theorem lookupA_eraseA_self {α : Type} (t : List (Int × α)) (k : Int) :
    lookupA (eraseA t k) k = none := by
  induction t with
  | nil => rfl
  | cons kv rest ih =>
    by_cases h : kv.1 = k
    · simpa [eraseA, List.filter, h] using ih
    · simpa [eraseA, List.filter, h, lookupA] using ih

theorem lookupA_eraseA_ne {α : Type} (t : List (Int × α)) (k k' : Int) (h : k' ≠ k) :
    lookupA (eraseA t k) k' = lookupA t k' := by
  induction t with
  | nil => rfl
  | cons kv rest ih =>
    simp only [eraseA, List.filter_cons] at ih ⊢
    by_cases h1 : kv.1 = k
    · have hd : decide (kv.1 ≠ k) = false := by simp [h1]
      rw [hd, if_neg Bool.false_ne_true]
      have h2 : kv.1 ≠ k' := by rw [h1]; exact fun he => h he.symm
      rw [ih]
      conv_rhs => rw [lookupA]
      rw [if_neg h2]
    · have hd : decide (kv.1 ≠ k) = true := by simp [h1]
      rw [hd, if_pos rfl]
      rw [lookupA, lookupA]
      by_cases h2 : kv.1 = k'
      · rw [if_pos h2, if_pos h2]
      · rw [if_neg h2, if_neg h2]
        exact ih

theorem lookupA_none_eraseA {α : Type} (t : List (Int × α)) (k k' : Int)
    (h : lookupA t k' = none) : lookupA (eraseA t k) k' = none := by
  by_cases he : k' = k
  · rw [he]; exact lookupA_eraseA_self t k
  · rw [lookupA_eraseA_ne t k k' he]; exact h

theorem setPageAt_disk (bpm : BufferPoolManager) (f : Int) (pg : Page) :
    (bpm.setPageAt f pg).disk = bpm.disk := by
  unfold BufferPoolManager.setPageAt
  split <;> rfl

theorem setPageAt_page_table (bpm : BufferPoolManager) (f : Int) (pg : Page) :
    (bpm.setPageAt f pg).page_table = bpm.page_table := by
  unfold BufferPoolManager.setPageAt
  split <;> rfl

theorem setPageAt_free_list (bpm : BufferPoolManager) (f : Int) (pg : Page) :
    (bpm.setPageAt f pg).free_list = bpm.free_list := by
  unfold BufferPoolManager.setPageAt
  split <;> rfl

theorem setPageAt_replacer (bpm : BufferPoolManager) (f : Int) (pg : Page) :
    (bpm.setPageAt f pg).replacer = bpm.replacer := by
  unfold BufferPoolManager.setPageAt
  split <;> rfl

theorem setPageAt_pool_size (bpm : BufferPoolManager) (f : Int) (pg : Page) :
    (bpm.setPageAt f pg).pool_size = bpm.pool_size := by
  unfold BufferPoolManager.setPageAt
  split <;> rfl

theorem getD_set_ne {α : Type} (l : List α) (i j : Nat) (a d : α) (h : i ≠ j) :
    (l.set i a).getD j d = l.getD j d := by
  induction l generalizing i j with
  | nil => simp
  | cons x xs ih =>
    cases i with
    | zero =>
      cases j with
      | zero => exact absurd rfl h
      | succ j => simp [List.set]
    | succ i =>
      cases j with
      | zero => simp [List.set]
      | succ j => simpa [List.set] using ih i j (by omega)

theorem getD_set_self {α : Type} (l : List α) (i : Nat) (a d : α) (h : i < l.length) :
    (l.set i a).getD i d = a := by
  induction l generalizing i with
  | nil => simp at h
  | cons x xs ih =>
    cases i with
    | zero => simp [List.set]
    | succ i => simpa [List.set] using ih i (by simpa using h)

theorem getPageByFrameId_setPageAt_ne (bpm : BufferPoolManager) (f g : Int) (pg : Page)
    (hf : 0 ≤ f) (hne : g ≠ f) :
    (bpm.setPageAt f pg).getPageByFrameId g = bpm.getPageByFrameId g := by
  unfold BufferPoolManager.setPageAt BufferPoolManager.getPageByFrameId
  rw [if_pos hf]
  by_cases hg : 0 ≤ g
  · simp only [if_pos hg]
    have htn : f.toNat ≠ g.toNat := fun hx => hne (by omega)
    rw [getD_set_ne _ _ _ _ _ htn]
  · simp only [if_neg hg]

theorem getPageByFrameId_setPageAt_self (bpm : BufferPoolManager) (f : Int) (pg : Page)
    (hf : 0 ≤ f) (hlt : f.toNat < bpm.pages.length) :
    (bpm.setPageAt f pg).getPageByFrameId f = pg := by
  unfold BufferPoolManager.setPageAt BufferPoolManager.getPageByFrameId
  rw [if_pos hf]
  simp only [if_pos hf]
  rw [getD_set_self _ _ _ _ hlt]

theorem victim_some_size_ne (r : ClockReplacer) (x : Nat × ClockReplacer)
    (h : r.Victim = some x) : r.victimized_size ≠ 0 := by
  intro h0
  unfold ClockReplacer.Victim at h
  rw [if_pos h0] at h
  exact Option.noConfusion h

theorem pickVictimPage_replacer_dirty (bpm : BufferPoolManager) (fN : Nat)
    (rep : ClockReplacer) (pg : Page)
    (hfree : bpm.free_list = [])
    (hvic : bpm.replacer.Victim = some (fN, rep))
    (hpg : bpm.getPageByFrameId (fN : Int) = pg)
    (hdirty : pg.is_dirty = true) :
    pickVictimPage bpm = ((fN : Int),
      { bpm with replacer := rep,
                 disk := bpm.disk.WritePage pg.page_id pg.data,
                 page_table := eraseA bpm.page_table pg.page_id }) := by
  simp only [pickVictimPage, hfree, hvic, hpg, hdirty, if_true]

/-- C3: on a miss in Fetch (and identically in NewPage) whose chosen
frame is a dirty victim from the replacer, the victim's payload is
written to the disk manager before the frame is reused (the write log
receives the old payload), and the victim's old entry is erased from the
page table while the new entry is installed. -/
theorem bpm_miss_dirty_victim_writeback
    (bpm : BufferPoolManager) (pid : Int) (fN : Nat) (rep : ClockReplacer) (pg : Page)
    (hmiss : bpm.getFrameId pid = none)
    (hfree : bpm.free_list = [])
    (hvic : bpm.replacer.Victim = some (fN, rep))
    (hpg : bpm.getPageByFrameId (fN : Int) = pg)
    (hres : lookupA bpm.page_table pg.page_id = some (fN : Int))
    (hdirty : pg.is_dirty = true)
    (hfresh : lookupA bpm.page_table bpm.disk.next_page_id = none) :
    ((FetchPageImpl bpm pid).2.disk.writes =
        bpm.disk.writes ++ [(pg.page_id, pg.data)] ∧
      lookupA (FetchPageImpl bpm pid).2.page_table pg.page_id = none ∧
      lookupA (FetchPageImpl bpm pid).2.page_table pid = some (fN : Int) ∧
      (FetchPageImpl bpm pid).1 = some (fN : Int)) ∧
    ((NewPageImpl bpm).2.disk.writes =
        bpm.disk.writes ++ [(pg.page_id, pg.data)] ∧
      lookupA (NewPageImpl bpm).2.page_table pg.page_id = none ∧
      lookupA (NewPageImpl bpm).2.page_table bpm.disk.next_page_id = some (fN : Int) ∧
      (NewPageImpl bpm).1 = some (bpm.disk.next_page_id, (fN : Int))) := by
  have hpick := pickVictimPage_replacer_dirty bpm fN rep pg hfree hvic hpg hdirty
  have hmiss' : lookupA bpm.page_table pid = none := hmiss
  have hold_ne_pid : pg.page_id ≠ pid := by
    intro he
    rw [he, hmiss'] at hres
    exact Option.noConfusion hres
  have hold_ne_new : pg.page_id ≠ bpm.disk.next_page_id := by
    intro he
    rw [he, hfresh] at hres
    exact Option.noConfusion hres
  have hne1 : ¬((fN : Int) = -1) := by omega
  have hne2 : ¬((fN : Int) < 0) := by omega
  have hins1 : insertA (eraseA bpm.page_table pg.page_id) pid (fN : Int) =
      (pid, (fN : Int)) :: eraseA bpm.page_table pg.page_id := by
    rw [insertA, lookupA_none_eraseA _ _ _ hmiss']
    rfl
  have hins2 : insertA (eraseA bpm.page_table pg.page_id) bpm.disk.next_page_id (fN : Int) =
      (bpm.disk.next_page_id, (fN : Int)) :: eraseA bpm.page_table pg.page_id := by
    rw [insertA, lookupA_none_eraseA _ _ _ hfresh]
    rfl
  constructor
  · simp only [FetchPageImpl, hmiss, hpick, if_neg hne1, setPageAt_disk,
      setPageAt_page_table, DiskManager.WritePage]
    refine ⟨trivial, ?_, ?_, trivial⟩
    · rw [hins1, lookupA, if_neg (fun h => hold_ne_pid h.symm)]
      exact lookupA_eraseA_self _ _
    · rw [hins1, lookupA, if_pos rfl]
  · have hsz := victim_some_size_ne _ _ hvic
    have hall : isAllPined bpm = false := by
      rw [isAllPined, beq_eq_false_iff_ne.mpr (by exact hsz : ClockReplacer.Size bpm.replacer ≠ 0),
        Bool.and_false]
    simp only [NewPageImpl, hall, Bool.false_eq_true, if_false, hpick, if_neg hne2,
      DiskManager.AllocatePage, setPageAt_disk, setPageAt_page_table, DiskManager.WritePage]
    refine ⟨trivial, ?_, ?_, trivial⟩
    · rw [hins2, lookupA, if_neg (fun h => hold_ne_new h.symm)]
      exact lookupA_eraseA_self _ _
    · rw [hins2, lookupA, if_pos rfl]

/-- C8: releasing a resident page whose pin count is already zero
returns false and performs no state mutation whatsoever. -/
theorem bpm_unpin_zero_pin_is_noop (bpm : BufferPoolManager) (pid f : Int) (dirty : Bool)
    (hf : bpm.getFrameId pid = some f)
    (hp : (bpm.getPageByFrameId f).pin_count = 0) :
    UnpinPageImpl bpm pid dirty = (false, bpm) := by
  simp only [UnpinPageImpl, hf]
  rw [if_pos (show (bpm.getPageByFrameId f).pin_count ≤ 0 by omega)]

theorem page_clean_eta (pg : Page) (h : pg.is_dirty = false) :
    { pg with is_dirty := false } = pg := by
  cases pg
  simp_all

theorem getD_len_le {α : Type} (l : List α) (n : Nat) (d : α) (h : l.length ≤ n) :
    l.getD n d = d := by
  induction l generalizing n with
  | nil => simp
  | cons x xs ih =>
    cases n with
    | zero => simp at h
    | succ n => simpa using ih n (by simpa using h)

theorem dirty_frame_valid (bpm : BufferPoolManager) (f : Int)
    (h : (bpm.getPageByFrameId f).is_dirty = true) :
    0 ≤ f ∧ f.toNat < bpm.pages.length := by
  unfold BufferPoolManager.getPageByFrameId at h
  by_cases hf : 0 ≤ f
  · rw [if_pos hf] at h
    refine ⟨hf, ?_⟩
    by_contra hge
    rw [getD_len_le _ _ _ (by omega)] at h
    simp [defaultPage] at h
  · rw [if_neg hf] at h
    simp [defaultPage] at h

theorem filterMap_writes_congr (l : List (Int × Int)) (A B : BufferPoolManager)
    (h : ∀ pf ∈ l, A.getPageByFrameId pf.2 = B.getPageByFrameId pf.2) :
    (l.filter (fun pf => (A.getPageByFrameId pf.2).is_dirty)).map
      (fun pf => (pf.1, (A.getPageByFrameId pf.2).data)) =
    (l.filter (fun pf => (B.getPageByFrameId pf.2).is_dirty)).map
      (fun pf => (pf.1, (B.getPageByFrameId pf.2).data)) := by
  induction l with
  | nil => rfl
  | cons pf rest ih =>
    have hh := h pf (by simp)
    have ht : ∀ q ∈ rest, A.getPageByFrameId q.2 = B.getPageByFrameId q.2 :=
      fun q hq => h q (by simp [hq])
    simp only [List.filter_cons, hh]
    by_cases hd : (B.getPageByFrameId pf.2).is_dirty = true
    · rw [if_pos hd, if_pos hd]
      simp only [List.map_cons, hh]
      rw [ih ht]
    · rw [if_neg hd, if_neg hd]
      exact ih ht

theorem flushPage_dirty_eq (bpm : BufferPoolManager) (p f : Int)
    (hf : bpm.getFrameId p = some f)
    (hd : (bpm.getPageByFrameId f).is_dirty = true) :
    FlushPageImpl bpm p = (false,
      ({ bpm with disk := bpm.disk.WritePage p (bpm.getPageByFrameId f).data
        } : BufferPoolManager).setPageAt f
        { bpm.getPageByFrameId f with is_dirty := false }) := by
  simp only [FlushPageImpl, hf]
  rw [if_neg (not_not_intro hd)]

theorem flushPage_clean_eq (bpm : BufferPoolManager) (p f : Int)
    (hf : bpm.getFrameId p = some f)
    (hd : (bpm.getPageByFrameId f).is_dirty = false) :
    FlushPageImpl bpm p = (false, bpm) := by
  simp only [FlushPageImpl, hf]
  rw [if_pos (show ¬ ((bpm.getPageByFrameId f).is_dirty = true) by
    rw [hd]; exact Bool.false_ne_true)]

theorem flushList_spec (todo : List (Int × Int)) :
    ∀ bpm : BufferPoolManager,
      (∀ pf ∈ todo, lookupA bpm.page_table pf.1 = some pf.2) →
      (todo.map Prod.snd).Nodup →
      (flushList todo bpm).page_table = bpm.page_table ∧
      (∀ pf ∈ todo, (flushList todo bpm).getPageByFrameId pf.2 =
        { bpm.getPageByFrameId pf.2 with is_dirty := false }) ∧
      (∀ g : Int, (∀ pf ∈ todo, pf.2 ≠ g) →
        (flushList todo bpm).getPageByFrameId g = bpm.getPageByFrameId g) ∧
      (flushList todo bpm).disk.writes = bpm.disk.writes ++
        (todo.filter (fun pf => (bpm.getPageByFrameId pf.2).is_dirty)).map
          (fun pf => (pf.1, (bpm.getPageByFrameId pf.2).data)) := by
  induction todo with
  | nil =>
    intro bpm _ _
    exact ⟨rfl, by simp, fun g _ => rfl, by simp [flushList]⟩
  | cons pf rest ih =>
    intro bpm hlk hnd
    obtain ⟨p, f⟩ := pf
    have hlk0 : bpm.getFrameId p = some f := hlk (p, f) (by simp)
    have hfnotin : f ∉ rest.map Prod.snd := (List.nodup_cons.mp hnd).1
    have hndt : (rest.map Prod.snd).Nodup := (List.nodup_cons.mp hnd).2
    have hrestne : ∀ q ∈ rest, q.2 ≠ f := by
      intro q hq he
      exact hfnotin (he ▸ List.mem_map_of_mem Prod.snd hq)
    have hrun : flushList ((p, f) :: rest) bpm = flushList rest (FlushPageImpl bpm p).2 := rfl
    by_cases hd : (bpm.getPageByFrameId f).is_dirty = true
    · -- dirty head: one write, frame cleaned in place
      obtain ⟨hf0, hflt⟩ := dirty_frame_valid bpm f hd
      have hstep : (FlushPageImpl bpm p).2 =
          ({ bpm with disk := bpm.disk.WritePage p (bpm.getPageByFrameId f).data
            } : BufferPoolManager).setPageAt f
            { bpm.getPageByFrameId f with is_dirty := false } := by
        rw [flushPage_dirty_eq bpm p f hlk0 hd]
      set bpm2 := ({ bpm with disk := bpm.disk.WritePage p (bpm.getPageByFrameId f).data
        } : BufferPoolManager).setPageAt f
        { bpm.getPageByFrameId f with is_dirty := false } with hbpm2
      have htbl2 : bpm2.page_table = bpm.page_table := by
        rw [hbpm2, setPageAt_page_table]
      have hpage2_ne : ∀ g : Int, g ≠ f →
          bpm2.getPageByFrameId g = bpm.getPageByFrameId g := by
        intro g hg
        rw [hbpm2, getPageByFrameId_setPageAt_ne _ _ _ _ hf0 hg]
        rfl
      have hpage2_self : bpm2.getPageByFrameId f =
          { bpm.getPageByFrameId f with is_dirty := false } := by
        rw [hbpm2]
        exact getPageByFrameId_setPageAt_self _ _ _ hf0 hflt
      have hw2 : bpm2.disk.writes =
          bpm.disk.writes ++ [(p, (bpm.getPageByFrameId f).data)] := by
        rw [hbpm2, setPageAt_disk]
        rfl
      have hlk2 : ∀ q ∈ rest, lookupA bpm2.page_table q.1 = some q.2 := by
        intro q hq
        rw [htbl2]
        exact hlk q (by simp [hq])
      obtain ⟨ih1, ih2, ih3, ih4⟩ := ih bpm2 hlk2 hndt
      have hpages_rest : ∀ q ∈ rest, bpm2.getPageByFrameId q.2 = bpm.getPageByFrameId q.2 :=
        fun q hq => hpage2_ne q.2 (hrestne q hq)
      refine ⟨?_, ?_, ?_, ?_⟩
      · rw [hrun, hstep, ih1, htbl2]
      · intro q hq
        rw [hrun, hstep]
        rcases List.mem_cons.mp hq with he | hm
        · obtain rfl : q = (p, f) := he
          rw [ih3 f (fun q2 hq2 => hrestne q2 hq2), hpage2_self]
        · rw [ih2 q hm, hpages_rest q hm]
      · intro g hg
        rw [hrun, hstep]
        have hgf : g ≠ f := fun h => (hg (p, f) (by simp)) h.symm
        rw [ih3 g (fun q hq => hg q (by simp [hq])), hpage2_ne g hgf]
      · rw [hrun, hstep, ih4, hw2,
          filterMap_writes_congr rest bpm2 bpm hpages_rest, List.append_assoc]
        congr 1
        simp only [List.filter_cons, List.singleton_append]
        rw [if_pos hd]
        simp
    · -- clean head: flush is the identity on the state
      have hd' : (bpm.getPageByFrameId f).is_dirty = false := by
        cases hx : (bpm.getPageByFrameId f).is_dirty
        · rfl
        · exact absurd hx hd
      have hstep : (FlushPageImpl bpm p).2 = bpm := by
        rw [flushPage_clean_eq bpm p f hlk0 hd']
      obtain ⟨ih1, ih2, ih3, ih4⟩ := ih bpm (fun q hq => hlk q (by simp [hq])) hndt
      refine ⟨?_, ?_, ?_, ?_⟩
      · rw [hrun, hstep, ih1]
      · intro q hq
        rw [hrun, hstep]
        rcases List.mem_cons.mp hq with he | hm
        · obtain rfl : q = (p, f) := he
          rw [ih3 f (fun q2 hq2 => hrestne q2 hq2), page_clean_eta _ hd']
        · exact ih2 q hm
      · intro g hg
        rw [hrun, hstep]
        exact ih3 g (fun q hq => hg q (by simp [hq]))
      · rw [hrun, hstep, ih4]
        congr 1
        simp only [List.filter_cons]
        rw [if_neg (show ¬ ((bpm.getPageByFrameId f).is_dirty = true) by
          rw [hd']; exact Bool.false_ne_true)]

/-! ## Claim theorems -/

/-- C1 (code divergence at the failing input): with page 0 resident and
dirty, `FlushPageImpl` does write the frame's payload via the disk
manager and does clear `is_dirty`, but it returns `false` where the
claim requires `true`. -/
theorem bpm_flush_dirty_divergence :
    bpmS2.getFrameId 0 = some 0 ∧
    (bpmS2.getPageByFrameId 0).is_dirty = true ∧
    (FlushPageImpl bpmS2 0).1 = false ∧
    (FlushPageImpl bpmS2 0).2.disk.writes =
      bpmS2.disk.writes ++ [(0, (bpmS2.getPageByFrameId 0).data)] ∧
    ((FlushPageImpl bpmS2 0).2.getPageByFrameId 0).is_dirty = false := by decide

/-- C2 (code divergence at the failing input): with page 0 resident at
frame 0 with pin count 1, `FetchPageImpl` on the hit path returns the
same frame but leaves the pin count at 1 instead of incrementing it to
2. -/
theorem bpm_fetch_hit_pin_count_divergence :
    bpmS1.getFrameId 0 = some 0 ∧
    (bpmS1.getPageByFrameId 0).pin_count = 1 ∧
    (FetchPageImpl bpmS1 0).1 = some 0 ∧
    ((FetchPageImpl bpmS1 0).2.getPageByFrameId 0).pin_count = 1 := by decide

/-- C4 (code divergence at the failing input): deleting resident,
unpinned page 0 removes the table entry and returns the frame to the
free list, but returns `false` instead of `true`, never notifies the
disk manager (`deallocs` stays empty), and never informs the replacer
(the freed frame is left evictable). -/
theorem bpm_delete_page_divergence :
    bpmS2.getFrameId 0 = some 0 ∧
    (bpmS2.getPageByFrameId 0).pin_count = 0 ∧
    (DeletePageImpl bpmS2 0).1 = false ∧
    (DeletePageImpl bpmS2 0).2.disk.deallocs = [] ∧
    (DeletePageImpl bpmS2 0).2.replacer = bpmS2.replacer ∧
    (DeletePageImpl bpmS2 0).2.replacer.isEvict 0 = true ∧
    lookupA (DeletePageImpl bpmS2 0).2.page_table 0 = none ∧
    (DeletePageImpl bpmS2 0).2.free_list = [0] := by decide

/-- C5 (code divergence at the failing input): the invariant `evictable
iff pin count zero and resident` holds after New;Unpin, but a Fetch hit
on the unpinned resident page breaks it: the replacer pins frame 0 while
the pool's pin count stays 0, so the frame has pin count 0, is resident,
and is not evictable. -/
theorem bpm_replacer_invariant_broken_by_fetch_hit :
    poolReplacerInv bpmS2 = true ∧
    (FetchPageImpl bpmS2 0).1 = some 0 ∧
    poolReplacerInv bpmS3 = false ∧
    (bpmS3.getPageByFrameId 0).pin_count = 0 ∧
    lookupA bpmS3.page_table 0 = some 0 ∧
    bpmS3.replacer.isEvict 0 = false := by decide

/-- C6: in a well-formed replacer state with at least one evictable
frame, `Victim` selects exactly the frame described by the claim's sweep
rule (`clockSpecVictim`: the first evictable frame at or after the hand
whose reference bit is false once the clearing pass is accounted for),
clears the victim's evictable status, and advances the hand one position
past it. -/
theorem clock_victim_matches_spec (r : ClockReplacer) (hWF : ClockWF r)
    (hx : 0 < countFalse r.pins_states) :
    ∃ t rep, r.Victim = some (t, rep) ∧
      r.clockSpecVictim = some t ∧
      rep.pins_states = r.pins_states.set t true ∧
      rep.clock_pointer = t + 1 := by
  obtain ⟨t, rep, h1, h2, h3, h4, _⟩ := victim_spec_core r hWF hx
  exact ⟨t, rep, h1, h2, h3, h4⟩

theorem clock_victim_matches_spec_witness :
    ∃ t rep, repW67.Victim = some (t, rep) ∧
      repW67.clockSpecVictim = some t ∧
      rep.pins_states = repW67.pins_states.set t true ∧
      rep.clock_pointer = t + 1 :=
  clock_victim_matches_spec repW67 (by decide) (by decide)

/-- C7: `Victim` always terminates in a well-formed state: with no
evictable frame it returns none without sweeping (the counter guard),
and with at least one evictable frame the sweep with fuel for two full
revolutions of the hand already selects a victim. -/
theorem clock_victim_total (r : ClockReplacer) (hWF : ClockWF r) :
    (countFalse r.pins_states = 0 → r.Victim = none) ∧
    (0 < countFalse r.pins_states →
      ∃ t rep, ClockReplacer.victimLoop (2 * r.pins_states.length) r = some (t, rep)) := by
  constructor
  · intro h0
    unfold ClockReplacer.Victim
    rw [if_pos (by rw [hWF.2.2, h0]; rfl)]
  · intro hx
    obtain ⟨t, rep, h1, _, _, _, _⟩ := victim_spec_core r hWF hx
    have hVic : r.Victim = ClockReplacer.victimLoop (2 * r.pins_states.length) r := by
      unfold ClockReplacer.Victim
      rw [if_neg (by rw [hWF.2.2]; omega)]
    exact ⟨t, rep, by rw [← hVic, h1]⟩

theorem clock_victim_total_witness :
    (countFalse repW67.pins_states = 0 → repW67.Victim = none) ∧
    (0 < countFalse repW67.pins_states →
      ∃ t rep, ClockReplacer.victimLoop (2 * repW67.pins_states.length) repW67 =
        some (t, rep)) :=
  clock_victim_total repW67 (by decide)

theorem bpm_unpin_zero_pin_is_noop_witness :
    UnpinPageImpl bpmS2 0 true = (false, bpmS2) :=
  bpm_unpin_zero_pin_is_noop bpmS2 0 0 true (by decide) (by decide)

/-- C9 (counterexample): a negative frame index is not ignored by the
replacer. The guard only checks the upper bound, so `Pin (-1)` and
`Unpin (-1)` pass it and perform an out-of-range vector access (modelled
as `none`) instead of leaving the state unchanged. -/
theorem clock_negative_index_not_ignored :
    ClockReplacer.Pin repW9 (-1) = none ∧
    ClockReplacer.Unpin repW9 (-1) = none ∧
    ((-1 : Int) < (repW9.pins_states.length : Int)) := by decide

/-- C9 (amended): for every frame index at or above the capacity, `Pin`
and `Unpin` are no-ops leaving the replacer's state unchanged; negative
indices are not guarded. -/
theorem clock_large_index_ignored (r : ClockReplacer) (f : Int)
    (h : (r.pins_states.length : Int) ≤ f) :
    r.Pin f = some r ∧ r.Unpin f = some r := by
  have hn : ¬ (f < (r.pins_states.length : Int)) := by omega
  unfold ClockReplacer.Pin ClockReplacer.Unpin
  rw [if_neg hn, if_neg hn]
  exact ⟨rfl, rfl⟩

theorem clock_large_index_ignored_witness :
    ClockReplacer.Pin repW9 5 = some repW9 ∧
    ClockReplacer.Unpin repW9 5 = some repW9 :=
  clock_large_index_ignored repW9 5 (by decide)

/-- C10: `FlushAllPagesImpl` leaves the page table unchanged, leaves
every resident page clean, and appends to the disk write log exactly one
write for each page that was dirty at the start of the call (in table
order) and none for the pages that were clean. -/
theorem bpm_flush_all_clears_and_logs (bpm : BufferPoolManager)
    (hlk : ∀ pf ∈ bpm.page_table, lookupA bpm.page_table pf.1 = some pf.2)
    (hnd : (bpm.page_table.map Prod.snd).Nodup) :
    (FlushAllPagesImpl bpm).page_table = bpm.page_table ∧
    (∀ pf ∈ bpm.page_table,
      ((FlushAllPagesImpl bpm).getPageByFrameId pf.2).is_dirty = false) ∧
    (FlushAllPagesImpl bpm).disk.writes = bpm.disk.writes ++
      (bpm.page_table.filter (fun pf => (bpm.getPageByFrameId pf.2).is_dirty)).map
        (fun pf => (pf.1, (bpm.getPageByFrameId pf.2).data)) := by
  obtain ⟨h1, h2, _, h4⟩ := flushList_spec bpm.page_table bpm hlk hnd
  refine ⟨h1, ?_, h4⟩
  intro pf hm
  show ((flushList bpm.page_table bpm).getPageByFrameId pf.2).is_dirty = false
  rw [h2 pf hm]

theorem bpm_flush_all_clears_and_logs_witness :
    (FlushAllPagesImpl bpmW10).page_table = bpmW10.page_table ∧
    (∀ pf ∈ bpmW10.page_table,
      ((FlushAllPagesImpl bpmW10).getPageByFrameId pf.2).is_dirty = false) ∧
    (FlushAllPagesImpl bpmW10).disk.writes = bpmW10.disk.writes ++
      (bpmW10.page_table.filter (fun pf => (bpmW10.getPageByFrameId pf.2).is_dirty)).map
        (fun pf => (pf.1, (bpmW10.getPageByFrameId pf.2).data)) :=
  bpm_flush_all_clears_and_logs bpmW10 (by decide) (by decide)

theorem bpm_miss_dirty_victim_writeback_witness :
    ((FetchPageImpl bpmS2 1).2.disk.writes = bpmS2.disk.writes ++ [(0, 0)] ∧
      lookupA (FetchPageImpl bpmS2 1).2.page_table 0 = none ∧
      lookupA (FetchPageImpl bpmS2 1).2.page_table 1 = some 0 ∧
      (FetchPageImpl bpmS2 1).1 = some 0) ∧
    ((NewPageImpl bpmS2).2.disk.writes = bpmS2.disk.writes ++ [(0, 0)] ∧
      lookupA (NewPageImpl bpmS2).2.page_table 0 = none ∧
      lookupA (NewPageImpl bpmS2).2.page_table bpmS2.disk.next_page_id = some 0 ∧
      (NewPageImpl bpmS2).1 = some (bpmS2.disk.next_page_id, 0)) :=
  bpm_miss_dirty_victim_writeback bpmS2 1 0 ⟨[false], [true], 0, 1⟩ ⟨0, 0, true, 0⟩
    (by decide) (by decide) (by decide) (by decide) (by decide) (by decide) (by decide)
